import Mathlib

/-!
Verification of the ASR notebook
(speech-processing-with-transformer/automatic_speech_recognition_with_transformer.ipynb).

Python strings are modelled as lists of characters, Python dictionaries as
functions built by folding insertions (last write wins), floating point
arithmetic as exact rational (or, where a square root is required, real)
arithmetic, and the raising of an uncaught exception as the result
Option.none.
-/

namespace ASR

/-! ## VectorizeChar -/

/-- The character vocabulary of VectorizeChar, exactly as built in
its constructor: the four control tokens, the 26 lowercase letters
(codepoints 97 to 122, written chr(i + 96) for i in 1..26), and the
four characters space, period, comma, question mark. -/
def vocab : List Char :=
  ['-', '#', '<', '>']
    ++ (List.range' 1 26).map (fun i => Char.ofNat (i + 96))
    ++ [' ', '.', ',', '?']

/-- Insertion of one binding into a dictionary modelled as a function. -/
def dict_insert (m : Char → Option ℕ) (p : ℕ × Char) : Char → Option ℕ :=
  fun c => if c = p.2 then some p.1 else m c

/-- A dictionary built by inserting the bindings of a list in order,
starting from the empty dictionary; a later binding shadows an earlier one. -/
def dict_of (l : List (ℕ × Char)) : Char → Option ℕ :=
  l.foldl dict_insert (fun _ => none)

/-- Python enumerate over a character list: pairs of index and character. -/
def pyEnumerate (l : List Char) : List (ℕ × Char) :=
  (List.range l.length).zip l

/-- The char_to_idx dictionary of VectorizeChar: for i, ch in
enumerate(vocab), set char_to_idx of ch to i. -/
def char_to_idx : Char → Option ℕ :=
  dict_of (pyEnumerate vocab)

/-- The dictionary access char_to_idx.get(ch, 1) in VectorizeChar,
defaulting to the unknown-token index 1. -/
def ctiGet (ch : Char) : ℕ :=
  (char_to_idx ch).getD 1

/-- VectorizeChar applied to a transcript: lowercase, truncate to
max_len minus 2 characters, wrap with the start and end markers, map each
character through char_to_idx with default 1, and right-pad with the pad
index 0 up to max_len.  (The slice text[: max_len - 2] agrees with
List.take for max_len at least 2, which is the only regime the script
uses: max_target_len is 200.) -/
def vectorize (max_len : ℕ) (text : List Char) : List ℕ :=
  let lowered := text.map Char.toLower
  let truncated := lowered.take (max_len - 2)
  let wrapped := '<' :: truncated ++ ['>']
  let pad_len := max_len - wrapped.length
  wrapped.map ctiGet ++ List.replicate pad_len 0

example : vocab.length = 34 := by decide
example : ctiGet '<' = 2 := by decide
example : ctiGet '>' = 3 := by decide
example : ctiGet 'a' = 4 := by decide
example : ctiGet 'b' = 5 := by decide
example : vectorize 6 ['a', 'b'] = [2, 4, 5, 3, 0, 0] := by decide
example : vectorize 6 ['A', 'b'] = [2, 4, 5, 3, 0, 0] := by decide
example : vectorize 4 ['x', 'y', 'z', 'w'] = [2, 27, 28, 3] := by decide

/-- Every index stored while folding the bindings into the dictionary is the
first component of a listed binding, unless it was already in the seed. -/
lemma dict_fold_some {l : List (ℕ × Char)} {m : Char → Option ℕ} {c : Char} {i : ℕ}
    (h : l.foldl dict_insert m c = some i) :
    (i, c) ∈ l ∨ m c = some i := by
  induction l generalizing m with
  | nil => exact Or.inr h
  | cons p l ih =>
    obtain ⟨pi, pc⟩ := p
    rcases ih h with hmem | hseed
    · exact Or.inl (List.mem_cons_of_mem _ hmem)
    · by_cases hc : c = pc
      · subst hc
        simp only [dict_insert, if_pos rfl] at hseed
        obtain rfl : pi = i := by injection hseed
        exact Or.inl (List.mem_cons_self _ _)
      · simp only [dict_insert, if_neg hc] at hseed
        exact Or.inr hseed

/-- Any index the char_to_idx dictionary can return is below the vocabulary
size 34; the default of the get is 1, so every looked-up code is below 34. -/
lemma ctiGet_lt (ch : Char) : ctiGet ch < 34 := by
  unfold ctiGet
  cases h : char_to_idx ch with
  | none => simp
  | some i =>
    simp only [Option.getD_some]
    rcases dict_fold_some (l := pyEnumerate vocab) h with hmem | hseed
    · have hi : i ∈ List.range vocab.length := (List.of_mem_zip hmem).1
      have : vocab.length = 34 := by decide
      simpa [this] using List.mem_range.mp hi
    · cases hseed

/-- Looking a vocabulary character up in char_to_idx and back through the
vocabulary list returns the character itself. -/
lemma vocab_getD_ctiGet : ∀ c ∈ vocab, vocab.getD (ctiGet c) '-' = c := by decide

/-- Closed form of vectorize when the transcript fits under the truncation
bound: start token 2, then the coded lowercased characters, then the end
token 3, then the zero padding. -/
lemma vectorize_closed_form (max_len : ℕ) (text : List Char)
    (hL : text.length ≤ max_len - 2) :
    vectorize max_len text =
      2 :: ((text.map Char.toLower).map ctiGet
        ++ 3 :: List.replicate (max_len - (text.length + 2)) 0) := by
  have htake : (text.map Char.toLower).take (max_len - 2) = text.map Char.toLower :=
    List.take_of_length_le (by simpa using hL)
  have h2 : ctiGet '<' = 2 := by decide
  have h3 : ctiGet '>' = 3 := by decide
  have hcount : max_len - (text.length + 1 + 1) = max_len - (text.length + 2) := by omega
  simp [vectorize, htake, h2, h3, hcount]

/-- Claim C1: for any max_len at least 2 (the script configures 200), the
vectorized transcript has length exactly max_len, starts with the start
token index 2, has every element below the vocabulary size 34, and when the
transcript length L fits under max_len - 2, carries the end token index 3
at position L + 1 followed only by pad indices 0. -/
theorem vectorize_wellformed (max_len : ℕ) (hm : 2 ≤ max_len) (text : List Char) :
    (vectorize max_len text).length = max_len ∧
    (vectorize max_len text).head? = some 2 ∧
    (∀ v ∈ vectorize max_len text, v < 34) ∧
    (text.length ≤ max_len - 2 →
      (vectorize max_len text)[text.length + 1]? = some 3 ∧
      ∀ j, text.length + 1 < j → j < max_len → (vectorize max_len text)[j]? = some 0) := by
  have h2 : ctiGet '<' = 2 := by decide
  refine ⟨?_, ?_, ?_, ?_⟩
  · simp only [vectorize, List.length_append, List.length_map, List.length_cons,
      List.length_replicate, List.length_take, List.length_nil]
    omega
  · simp [vectorize, h2]
  · intro v hv
    simp only [vectorize, List.mem_append, List.mem_map, List.mem_replicate] at hv
    rcases hv with ⟨ch, _, rfl⟩ | ⟨_, rfl⟩
    · exact ctiGet_lt ch
    · omega
  · intro hL
    rw [vectorize_closed_form max_len text hL]
    have hmlen : ((text.map Char.toLower).map ctiGet).length = text.length := by simp
    constructor
    · rw [List.getElem?_cons_succ]
      rw [List.getElem?_append_right (by omega)]
      simp [hmlen]
    · intro j hj1 hj2
      obtain ⟨k, rfl⟩ : ∃ k, j = k + 1 := ⟨j - 1, by omega⟩
      rw [List.getElem?_cons_succ]
      rw [List.getElem?_append_right (by omega)]
      obtain ⟨k', hk'⟩ : ∃ k', k - ((text.map Char.toLower).map ctiGet).length = k' + 1 :=
        ⟨k - ((text.map Char.toLower).map ctiGet).length - 1, by omega⟩
      rw [hk', List.getElem?_cons_succ]
      have : k' < max_len - (text.length + 2) := by omega
      simp [this]

/-- Claim C1 witness at the configured max_len 200. -/
theorem vectorize_wellformed_witness :
    (vectorize 200 ['h', 'i']).length = 200 ∧
    (vectorize 200 ['h', 'i'])[3]? = some 3 :=
  ⟨(vectorize_wellformed 200 (by decide) ['h', 'i']).1,
   ((vectorize_wellformed 200 (by decide) ['h', 'i']).2.2.2 (by decide)).1⟩

/-- Claim C2: for a transcript that fits under max_len - 2 and whose
lowercased characters all lie in the vocabulary, mapping elements 1 through
L of the vectorized output back through the vocabulary list recovers the
lowercased transcript. -/
theorem vectorize_roundtrip (max_len : ℕ) (text : List Char) (hm : 2 ≤ max_len)
    (hL : text.length ≤ max_len - 2)
    (hv : ∀ c ∈ text, Char.toLower c ∈ vocab) :
    (((vectorize max_len text).drop 1).take text.length).map (fun i => vocab.getD i '-')
      = text.map Char.toLower := by
  rw [vectorize_closed_form max_len text hL]
  have hmlen : ((text.map Char.toLower).map ctiGet).length = text.length := by simp
  rw [List.drop_succ_cons, List.drop_zero, List.take_left' hmlen, List.map_map, List.map_map]
  refine List.map_congr_left ?_
  intro c hc
  exact vocab_getD_ctiGet _ (hv c hc)

/-- Claim C2 witness at max_len 6 on a transcript holding an uppercase
letter. -/
theorem vectorize_roundtrip_witness :
    (((vectorize 6 ['A', 'b']).drop 1).take 2).map (fun i => vocab.getD i '-')
      = ['a', 'b'] := by
  have h := vectorize_roundtrip 6 ['A', 'b'] (by decide) (by decide) (by decide)
  simpa using h

/-- Claim C3 counterexample: vectorizing the transcript ab at max_len 6 does
not return the index sequence [2, 5, 6, 3, 0, 0] stated by the claim. -/
theorem vectorize_ab_counterexample : vectorize 6 ['a', 'b'] ≠ [2, 5, 6, 3, 0, 0] := by
  decide

/-- Claim C3 amended: vectorizing the transcript ab at max_len 6 returns
[2, 4, 5, 3, 0, 0], since a sits at vocabulary index 4 and b at 5. -/
theorem vectorize_ab : vectorize 6 ['a', 'b'] = [2, 4, 5, 3, 0, 0] := by decide

/-! ## path_to_audio

The audio featurizer is modelled from the STFT magnitude array onward: the
waveform decoding and the STFT itself are framework floating-point
primitives, and the claims about path_to_audio quantify over the frames the
STFT yields.  A spectrogram is a list of time frames, each a list of real
magnitude values; an stft with fft_length 256 yields 129 frequency bins per
frame, so the zero frames appended by tf.pad have width 129. -/

/-- The per-frame mean tf.math.reduce_mean over the frequency axis. -/
noncomputable def reduce_mean (l : List ℝ) : ℝ := l.sum / l.length

/-- The per-frame standard deviation tf.math.reduce_std over the frequency
axis: the square root of the mean squared deviation from the mean. -/
noncomputable def reduce_std (l : List ℝ) : ℝ :=
  Real.sqrt (reduce_mean (l.map (fun v => (v - reduce_mean l) ^ 2)))

/-- The normalisation x = (x - means) / stddevs of one time frame; the
division is applied unconditionally, with no guard on the divisor. -/
noncomputable def normalizeFrame (l : List ℝ) : List ℝ :=
  l.map (fun v => (v - reduce_mean l) / reduce_std l)

/-- The tail of path_to_audio after the STFT magnitude power compression:
per-frame normalisation, then tf.pad with paddings [[0, 2754], [0, 0]]
(append 2754 zero frames), then the slice [:2754, :]. -/
noncomputable def path_to_audio (mag : List (List ℝ)) : List (List ℝ) :=
  let x := mag.map normalizeFrame
  let pad_len := 2754
  (x ++ List.replicate pad_len (List.replicate 129 (0 : ℝ))).take pad_len

/-- Claim C4: whatever the number of STFT frames, the spectrogram returned
by path_to_audio has exactly 2754 time frames; frames beyond 2754 are
dropped and positions past the input frames hold zero frames. -/
theorem path_to_audio_fixed_frames (mag : List (List ℝ)) :
    (path_to_audio mag).length = 2754 ∧
    (∀ i, i < mag.length → i < 2754 →
      (path_to_audio mag)[i]? = (mag.map normalizeFrame)[i]?) ∧
    (∀ i, mag.length ≤ i → i < 2754 →
      (path_to_audio mag)[i]? = some (List.replicate 129 (0 : ℝ))) := by
  refine ⟨?_, ?_, ?_⟩
  · simp only [path_to_audio, List.length_take, List.length_append, List.length_map,
      List.length_replicate]
    omega
  · intro i h1 h2
    simp only [path_to_audio]
    rw [List.getElem?_take_of_lt h2]
    exact List.getElem?_append_left (by simpa using h1)
  · intro i h1 h2
    simp only [path_to_audio]
    rw [List.getElem?_take_of_lt h2]
    rw [List.getElem?_append_right (by simpa using h1)]
    have : i - (mag.map normalizeFrame).length < 2754 := by
      simp only [List.length_map]
      omega
    exact List.getElem?_replicate_of_lt this

/-- Claim C4 witness: the empty magnitude array is padded to 2754 zero
frames. -/
theorem path_to_audio_fixed_frames_witness :
    (path_to_audio []).length = 2754 ∧
    (path_to_audio [])[0]? = some (List.replicate 129 (0 : ℝ)) :=
  ⟨(path_to_audio_fixed_frames []).1,
   (path_to_audio_fixed_frames []).2.2 0 (by simp) (by norm_num)⟩

/-- Claim C5: the normalisation has no guard on its divisor: a time frame
whose magnitude values are all equal has standard deviation zero, and
normalizeFrame still divides every entry of the frame by that zero. -/
theorem normalize_divides_by_zero_std :
    ∃ frame : List ℝ, 0 < frame.length ∧ (∀ v ∈ frame, v = 1) ∧
      reduce_std frame = 0 ∧
      normalizeFrame frame = frame.map (fun v => (v - reduce_mean frame) / 0) := by
  have hmean : reduce_mean (List.replicate 129 (1 : ℝ)) = 1 := by
    simp only [reduce_mean, List.sum_replicate, List.length_replicate]
    norm_num
  have hstd : reduce_std (List.replicate 129 (1 : ℝ)) = 0 := by
    rw [reduce_std]
    have hmap : (List.replicate 129 (1 : ℝ)).map
        (fun v => (v - reduce_mean (List.replicate 129 (1 : ℝ))) ^ 2)
          = List.replicate 129 0 := by
      rw [hmean]
      simp
    rw [hmap]
    have hz : reduce_mean (List.replicate 129 (0 : ℝ)) = 0 := by
      simp [reduce_mean]
    rw [hz, Real.sqrt_zero]
  refine ⟨List.replicate 129 1, by simp, by simp, hstd, ?_⟩
  unfold normalizeFrame
  simp only [hstd]

/-! ## CustomSchedule

All hyperparameters are those the script passes: init_lr 0.00001,
lr_after_warmup 0.001, final_lr 0.00001, warmup_epochs 15, decay_epochs 85.
Floating point arithmetic is modelled exactly over the rationals. -/

def init_lr : ℚ := 1 / 100000

def lr_after_warmup : ℚ := 1 / 1000

def final_lr : ℚ := 1 / 100000

def warmup_epochs : ℚ := 15

def decay_epochs : ℚ := 85

/-- The warmup_lr line of CustomSchedule.calculate_lr. -/
def warmup_line (e : ℚ) : ℚ :=
  init_lr + ((lr_after_warmup - init_lr) / (warmup_epochs - 1)) * e

/-- The decay_lr curve of CustomSchedule.calculate_lr: the decay line
clamped below at final_lr by tf.math.maximum. -/
def decay_line (e : ℚ) : ℚ :=
  max final_lr
    (lr_after_warmup - (e - warmup_epochs) * (lr_after_warmup - final_lr) / decay_epochs)

/-- CustomSchedule.calculate_lr: the minimum of the warmup line and the
clamped decay line. -/
def calculate_lr (epoch : ℚ) : ℚ :=
  min (warmup_line epoch) (decay_line epoch)

/-- CustomSchedule applied to a global step: the epoch is the floor
division step // steps_per_epoch. -/
def CustomSchedule_call (steps_per_epoch step : ℕ) : ℚ :=
  calculate_lr ((step / steps_per_epoch : ℕ) : ℚ)

example : calculate_lr 0 = 1 / 100000 := by
  norm_num [calculate_lr, warmup_line, decay_line, init_lr, lr_after_warmup, final_lr,
    warmup_epochs, decay_epochs, min_def, max_def]
example : calculate_lr 14 = 1 / 1000 := by
  norm_num [calculate_lr, warmup_line, decay_line, init_lr, lr_after_warmup, final_lr,
    warmup_epochs, decay_epochs, min_def, max_def]
example : calculate_lr 15 = 1 / 1000 := by
  norm_num [calculate_lr, warmup_line, decay_line, init_lr, lr_after_warmup, final_lr,
    warmup_epochs, decay_epochs, min_def, max_def]
example : calculate_lr 100 = 1 / 100000 := by
  norm_num [calculate_lr, warmup_line, decay_line, init_lr, lr_after_warmup, final_lr,
    warmup_epochs, decay_epochs, min_def, max_def]

/-- The warmup line is non-decreasing. -/
lemma warmup_line_mono {a b : ℚ} (h : a ≤ b) : warmup_line a ≤ warmup_line b := by
  have hs : (0 : ℚ) ≤ (lr_after_warmup - init_lr) / (warmup_epochs - 1) := by
    unfold init_lr lr_after_warmup warmup_epochs
    norm_num
  have := mul_le_mul_of_nonneg_left h hs
  unfold warmup_line
  linarith

/-- The clamped decay curve is non-increasing. -/
lemma decay_line_anti {a b : ℚ} (h : a ≤ b) : decay_line b ≤ decay_line a := by
  have h1 : (a - warmup_epochs) * (lr_after_warmup - final_lr)
      ≤ (b - warmup_epochs) * (lr_after_warmup - final_lr) := by
    apply mul_le_mul_of_nonneg_right (by linarith)
    unfold lr_after_warmup final_lr
    norm_num
  have h2 : (a - warmup_epochs) * (lr_after_warmup - final_lr) / decay_epochs
      ≤ (b - warmup_epochs) * (lr_after_warmup - final_lr) / decay_epochs := by
    apply div_le_div_of_nonneg_right h1
    norm_num [decay_epochs]
  unfold decay_line
  exact max_le_max (le_refl _) (by linarith)

/-- On integer epochs up to 15 the schedule is the warmup line capped at
lr_after_warmup. -/
lemma calculate_lr_warm_closed (e : ℕ) (he : e ≤ 15) :
    calculate_lr e = min lr_after_warmup (warmup_line e) := by
  rcases Nat.lt_or_ge e 15 with h | h
  · have he14 : (e : ℚ) ≤ 14 := by exact_mod_cast Nat.lt_succ_iff.mp h
    have hw : warmup_line (e : ℚ) ≤ lr_after_warmup := by
      have := warmup_line_mono he14
      have h14 : warmup_line 14 = lr_after_warmup := by
        norm_num [warmup_line, init_lr, lr_after_warmup, warmup_epochs]
      rw [h14] at this
      exact this
    have hd : lr_after_warmup ≤ decay_line (e : ℚ) := by
      unfold decay_line
      refine le_max_of_le_right ?_
      have he15 : (e : ℚ) ≤ 15 := by linarith
      unfold lr_after_warmup final_lr warmup_epochs decay_epochs
      nlinarith
    unfold calculate_lr
    rw [min_eq_left (hw.trans hd), min_eq_right hw]
  · have : e = 15 := le_antisymm he h
    subst this
    norm_num [calculate_lr, warmup_line, decay_line, init_lr, lr_after_warmup, final_lr,
      warmup_epochs, decay_epochs, min_def, max_def]

/-- On integer epochs from 15 on the schedule is the clamped decay curve. -/
lemma calculate_lr_decay_closed (e : ℕ) (he : 15 ≤ e) :
    calculate_lr e = decay_line e := by
  have h15 : (15 : ℚ) ≤ (e : ℚ) := by exact_mod_cast he
  have hw : lr_after_warmup ≤ warmup_line (e : ℚ) := by
    have hmono := warmup_line_mono h15
    have h15v : lr_after_warmup ≤ warmup_line 15 := by
      norm_num [warmup_line, init_lr, lr_after_warmup, warmup_epochs]
    exact h15v.trans hmono
  have hd : decay_line (e : ℚ) ≤ lr_after_warmup := by
    unfold decay_line
    apply max_le
    · unfold final_lr lr_after_warmup
      norm_num
    · have hnn : (0 : ℚ) ≤ ((e : ℚ) - warmup_epochs) * (lr_after_warmup - final_lr)
          / decay_epochs := by
        apply div_nonneg
        · apply mul_nonneg
          · unfold warmup_epochs
            linarith
          · unfold lr_after_warmup final_lr
            norm_num
        · unfold decay_epochs
          norm_num
      linarith
  unfold calculate_lr
  rw [min_eq_right (hd.trans hw)]

/-- Claim C6: with the script hyperparameters, calculate_lr is
non-decreasing on integer epochs through the warmup window, non-increasing
on integer epochs through the decay window, starts at init_lr, peaks at
lr_after_warmup, reaches final_lr at the end of decay, and never drops
below final_lr at any nonnegative epoch. -/
theorem calculate_lr_schedule_shape :
    (∀ e1 e2 : ℕ, e1 ≤ e2 → e2 ≤ 15 → calculate_lr e1 ≤ calculate_lr e2) ∧
    (∀ e1 e2 : ℕ, 15 ≤ e1 → e1 ≤ e2 → calculate_lr e2 ≤ calculate_lr e1) ∧
    calculate_lr 0 = init_lr ∧ calculate_lr 15 = lr_after_warmup ∧
    calculate_lr 100 = final_lr ∧
    (∀ e : ℚ, 0 ≤ e → final_lr ≤ calculate_lr e) := by
  refine ⟨?_, ?_,
    by norm_num [calculate_lr, warmup_line, decay_line, init_lr, lr_after_warmup, final_lr,
      warmup_epochs, decay_epochs, min_def, max_def],
    by norm_num [calculate_lr, warmup_line, decay_line, init_lr, lr_after_warmup, final_lr,
      warmup_epochs, decay_epochs, min_def, max_def],
    by norm_num [calculate_lr, warmup_line, decay_line, init_lr, lr_after_warmup, final_lr,
      warmup_epochs, decay_epochs, min_def, max_def], ?_⟩
  · intro e1 e2 h12 h2
    rw [calculate_lr_warm_closed e1 (h12.trans h2), calculate_lr_warm_closed e2 h2]
    exact min_le_min (le_refl _) (warmup_line_mono (by exact_mod_cast h12))
  · intro e1 e2 h1 h12
    rw [calculate_lr_decay_closed e1 h1, calculate_lr_decay_closed e2 (h1.trans h12)]
    exact decay_line_anti (by exact_mod_cast h12)
  · intro e he
    unfold calculate_lr
    apply le_min
    · have h0 : (0 : ℚ) ≤ ((lr_after_warmup - init_lr) / (warmup_epochs - 1)) * e := by
        apply mul_nonneg _ he
        unfold lr_after_warmup init_lr warmup_epochs
        norm_num
      have hfi : final_lr = init_lr := rfl
      unfold warmup_line
      linarith
    · unfold decay_line
      exact le_max_left _ _

/-- Claim C6 witness on concrete epochs. -/
theorem calculate_lr_schedule_shape_witness :
    calculate_lr (3 : ℕ) ≤ calculate_lr (7 : ℕ) ∧
    calculate_lr (99 : ℕ) ≤ calculate_lr (20 : ℕ) ∧
    final_lr ≤ calculate_lr 50 :=
  ⟨calculate_lr_schedule_shape.1 3 7 (by decide) (by decide),
   calculate_lr_schedule_shape.2.1 20 99 (by decide) (by decide),
   calculate_lr_schedule_shape.2.2.2.2.2 50 (by norm_num)⟩

/-- Modelled from the spec: the warmup ramp as the claim words it, rising
linearly from init_lr at epoch 0 and reaching lr_after_warmup at epoch
warmup_epochs (the code instead divides by warmup_epochs - 1). -/
def spec_warmup_line (e : ℚ) : ℚ :=
  init_lr + ((lr_after_warmup - init_lr) / warmup_epochs) * e

/-- Modelled from the spec: the learning rate the claim ascribes to
CustomSchedule at a global step. -/
def spec_schedule_call (steps_per_epoch step : ℕ) : ℚ :=
  min (spec_warmup_line ((step / steps_per_epoch : ℕ) : ℚ))
    (decay_line ((step / steps_per_epoch : ℕ) : ℚ))

/-- Claim C7 counterexample: at step 1421 with the default 203 steps per
epoch (epoch 7), the schedule value differs from the minimum-of-curves
formula of the claim, because the code warmup slope divides by
warmup_epochs - 1, reaching the peak one epoch early. -/
theorem CustomSchedule_call_claim_counterexample :
    CustomSchedule_call 203 1421 ≠ spec_schedule_call 203 1421 := by
  norm_num [CustomSchedule_call, spec_schedule_call, calculate_lr, spec_warmup_line,
    warmup_line, decay_line, init_lr, lr_after_warmup, final_lr, warmup_epochs,
    decay_epochs, min_def, max_def]

/-- Claim C7 amended: the schedule at a step is the minimum of the warmup
line and the clamped decay line at epoch step // steps_per_epoch, where the
warmup line rises from init_lr at epoch 0 to lr_after_warmup at epoch
warmup_epochs - 1, and the decay line falls from lr_after_warmup at epoch
warmup_epochs to final_lr at epoch warmup_epochs + decay_epochs, clamped
below at final_lr. -/
theorem CustomSchedule_call_spec (steps_per_epoch step : ℕ) :
    CustomSchedule_call steps_per_epoch step =
      min (warmup_line ((step / steps_per_epoch : ℕ) : ℚ))
        (decay_line ((step / steps_per_epoch : ℕ) : ℚ)) ∧
    warmup_line 0 = init_lr ∧ warmup_line (warmup_epochs - 1) = lr_after_warmup ∧
    decay_line warmup_epochs = lr_after_warmup ∧
    decay_line (warmup_epochs + decay_epochs) = final_lr ∧
    (∀ e : ℚ, final_lr ≤ decay_line e) :=
  ⟨rfl,
   by norm_num [warmup_line, init_lr, lr_after_warmup, warmup_epochs],
   by norm_num [warmup_line, init_lr, lr_after_warmup, warmup_epochs],
   by norm_num [decay_line, init_lr, lr_after_warmup, final_lr, warmup_epochs,
     decay_epochs, max_def],
   by norm_num [decay_line, init_lr, lr_after_warmup, final_lr, warmup_epochs,
     decay_epochs, max_def],
   fun _ => le_max_left _ _⟩

/-! ## DisplayOutputs

The callback is constructed with idx_to_token set to the vectorizer
vocabulary and target_end_token_idx set to 3.  The model generation output
is a batch of index rows; on_epoch_end is modelled as returning the list of
printed prediction strings, or none when the epoch test makes it return
early without generating or printing anything. -/

/-- The vocabulary list handed to the callback, vectorizer.get_vocabulary(). -/
def idx_to_char : List Char := vocab

/-- The prediction-decoding loop of DisplayOutputs.on_epoch_end: append the
character of each index and stop right after the first end token. -/
def decode_prediction (table : List Char) (end_idx : ℕ) : List ℕ → List Char
  | [] => []
  | idx :: rest =>
    table.getD idx '-' ::
      (if idx = end_idx then [] else decode_prediction table end_idx rest)

/-- DisplayOutputs.on_epoch_end on the prediction rows of the evaluation
batch: none models the early return (no generation, no printing) when
epoch mod 5 is nonzero; otherwise the decoded prediction per row. -/
def on_epoch_end (epoch : ℕ) (preds : List (List ℕ)) : Option (List (List Char)) :=
  if epoch % 5 ≠ 0 then none
  else some (preds.map (decode_prediction idx_to_char 3))

/-- The prefix of a row up to and including the first occurrence of the end
token, or the whole row when no end token occurs. -/
def truncate_at_end (end_idx : ℕ) (row : List ℕ) : List ℕ :=
  row.take (row.findIdx (· == end_idx) + 1)

example : truncate_at_end 3 [4, 3, 5] = [4, 3] := by decide
example : truncate_at_end 3 [4, 5, 6] = [4, 5, 6] := by decide

/-- The decoding loop produces exactly the characters of the row truncated
just after the first end token. -/
lemma decode_prediction_eq_truncate (table : List Char) (e : ℕ) (row : List ℕ) :
    decode_prediction table e row
      = (truncate_at_end e row).map (fun i => table.getD i '-') := by
  induction row with
  | nil => rfl
  | cons idx rest ih =>
    by_cases h : idx = e
    · subst h
      simp [decode_prediction, truncate_at_end, List.findIdx_cons]
    · have hb : (idx == e) = false := by
        simpa using h
      simp [decode_prediction, truncate_at_end, List.findIdx_cons, h, hb, ih]

/-- Claim C8: on_epoch_end returns without generating or printing exactly
when epoch mod 5 is nonzero; when epoch mod 5 is zero, each printed
prediction is the decoding of the row up to and including the first end
token index 3 (the whole row when none occurs). -/
theorem on_epoch_end_spec (epoch : ℕ) (preds : List (List ℕ)) :
    (epoch % 5 ≠ 0 → on_epoch_end epoch preds = none) ∧
    (epoch % 5 = 0 → on_epoch_end epoch preds =
      some (preds.map
        (fun row => (truncate_at_end 3 row).map (fun i => idx_to_char.getD i '-')))) := by
  constructor
  · intro h
    simp [on_epoch_end, h]
  · intro h
    simp only [on_epoch_end, h, ne_eq, not_true_eq_false, ite_false, not_false_eq_true]
    exact congrArg some (List.map_congr_left fun row _ => decode_prediction_eq_truncate _ _ _)

/-- Claim C8 witness: epoch 7 prints nothing; epoch 5 decodes the row
4, 3, 5 to the two characters a and the end marker, dropping the tail. -/
theorem on_epoch_end_spec_witness :
    on_epoch_end 7 [[4, 3, 5]] = none ∧
    on_epoch_end 5 [[4, 3, 5]] = some [['a', '>']] := by
  constructor
  · exact (on_epoch_end_spec 7 [[4, 3, 5]]).1 (by decide)
  · have h := (on_epoch_end_spec 5 [[4, 3, 5]]).2 (by decide)
    rw [h]
    decide

/-! ## get_data

Wav paths, ids and transcripts are lists of characters; the id_to_text
dictionary is a partial map, and the uncaught KeyError a missing id raises
is modelled as the result none. -/

/-- Python str.split with a one-character separator. -/
def split_on_char (sep : Char) (s : List Char) : List (List Char) :=
  s.foldr
    (fun c acc =>
      match acc with
      | [] => [[c]]
      | g :: gs => if c = sep then [] :: g :: gs else (c :: g) :: gs)
    [[]]

example : split_on_char '/' ['a', '/', 'x', '.', 'w'] = [['a'], ['x', '.', 'w']] := by decide
example : split_on_char '/' [] = [[]] := by decide

/-- The id derived from a wav path in get_data: the last slash-separated
component, cut before its first dot: w.split on slash, last element, split
on dot, first element.  (Python split always returns a nonempty list, so
the defaults of getLastD and headD are never taken.) -/
def derive_id (w : List Char) : List Char :=
  (split_on_char '.' ((split_on_char '/' w).getLastD [])).headD []

example : derive_id ['a', '/', 'x', '.', 'w', 'a', 'v'] = ['x'] := by decide

/-- One audio-transcript record of get_data. -/
structure Sample where
  audio : List Char
  text : List Char
deriving DecidableEq

/-- get_data: walk the wav list, look each derived id up in id_to_text
(none models the KeyError on a missing id) and keep the records whose
transcript is shorter than maxlen. -/
def get_data : List (List Char) → (List Char → Option (List Char)) → ℕ → Option (List Sample)
  | [], _, _ => some []
  | w :: ws, id_to_text, maxlen =>
    match id_to_text (derive_id w) with
    | none => none
    | some t =>
      match get_data ws id_to_text maxlen with
      | none => none
      | some rest =>
        some (if t.length < maxlen then { audio := w, text := t } :: rest else rest)

/-- Claim C9: when every wav path has its derived id in the mapping,
get_data returns exactly the records whose transcript length is strictly
below maxlen, in the order of the wav list. -/
theorem get_data_filters (wavs : List (List Char))
    (id_to_text : List Char → Option (List Char)) (maxlen : ℕ)
    (h : ∀ w ∈ wavs, (id_to_text (derive_id w)).isSome) :
    get_data wavs id_to_text maxlen =
      some ((wavs.map
          (fun w => Sample.mk w ((id_to_text (derive_id w)).getD []))).filter
        (fun s => decide (s.text.length < maxlen))) := by
  induction wavs with
  | nil => rfl
  | cons w ws ih =>
    have hw := h w (List.mem_cons_self _ _)
    obtain ⟨t, ht⟩ := Option.isSome_iff_exists.mp hw
    have hrest := ih fun x hx => h x (List.mem_cons_of_mem _ hx)
    by_cases hlt : t.length < maxlen
    · simp [get_data, ht, hrest, List.filter_cons, hlt]
    · simp [get_data, ht, hrest, List.filter_cons, hlt]

/-- Claim C9 witness: of two wav files, the transcript hi of length 2 is
kept and the transcript longer of length 6 is dropped at maxlen 4. -/
theorem get_data_filters_witness :
    get_data [['a', '/', 'x', '.', 'w', 'a', 'v'], ['a', '/', 'y', '.', 'w', 'a', 'v']]
      (fun s =>
        if s = ['x'] then some ['h', 'i']
        else if s = ['y'] then some ['l', 'o', 'n', 'g', 'e', 'r'] else none) 4
      = some [⟨['a', '/', 'x', '.', 'w', 'a', 'v'], ['h', 'i']⟩] := by
  have h := get_data_filters
    [['a', '/', 'x', '.', 'w', 'a', 'v'], ['a', '/', 'y', '.', 'w', 'a', 'v']]
    (fun s =>
      if s = ['x'] then some ['h', 'i']
      else if s = ['y'] then some ['l', 'o', 'n', 'g', 'e', 'r'] else none) 4
    (by decide)
  rw [h]
  decide

/-- Claim C10: a wav path whose derived id is missing from the mapping
makes get_data raise the KeyError of the unguarded dictionary lookup
(modelled as none), whatever the rest of the list holds. -/
theorem get_data_missing_id (wavs : List (List Char))
    (id_to_text : List Char → Option (List Char)) (maxlen : ℕ) (w : List Char)
    (hw : w ∈ wavs) (hmiss : id_to_text (derive_id w) = none) :
    get_data wavs id_to_text maxlen = none := by
  induction wavs with
  | nil => cases hw
  | cons x ws ih =>
    rcases List.mem_cons.mp hw with rfl | hmem
    · simp [get_data, hmiss]
    · cases hx : id_to_text (derive_id x) with
      | none => simp [get_data, hx]
      | some t => simp [get_data, hx, ih hmem]

/-- Claim C10 witness: a single wav path with an empty mapping yields no
result at all. -/
theorem get_data_missing_id_witness :
    get_data [['a', '/', 'x', '.', 'w', 'a', 'v']] (fun _ => none) 50 = none :=
  get_data_missing_id [['a', '/', 'x', '.', 'w', 'a', 'v']] (fun _ => none) 50
    ['a', '/', 'x', '.', 'w', 'a', 'v'] (by decide) rfl

end ASR
